import Mathlib

/-!
Verification of the Splunk-forwarder health probe
(`checkmk/splunk_health_check.py`).

The script is embedded shallowly: Python strings become `String`,
lists become `List`, the attribute dictionary becomes an association
list whose lookup takes the last binding (Python dict assignment
overwrites), and the subprocess result is a record of return code,
stdout and stderr.  Every definition mirrors the corresponding source
line; the regular expressions of the script are fixed-shape and are
implemented as explicit character scanners with the same semantics.
-/

namespace SplunkHealth

/-! ### Python string primitives -/

/-- Whitespace as recognised by Python `str.strip` / regex `\s`
(ASCII part, which is all the script ever meets). -/
def pyIsSpace (c : Char) : Bool :=
  c == ' ' || c == '\t' || c == '\n' || c == '\r' || c == '\x0b' || c == '\x0c'

/-- Python `str.strip()`: remove whitespace from both ends. -/
def pyStrip (s : String) : String :=
  ⟨((s.data.dropWhile pyIsSpace).reverse.dropWhile pyIsSpace).reverse⟩

/-- Python `str.lower()` (ASCII letters, as in the script data). -/
def pyLower (s : String) : String :=
  ⟨s.data.map Char.toLower⟩

/-- Python `str.upper()` (ASCII letters, as in the script data). -/
def pyUpper (s : String) : String :=
  ⟨s.data.map Char.toUpper⟩

/-- Does the second list start with the first one?
(Python `str.startswith`, on characters.) -/
def hasPfx : List Char → List Char → Bool
  | [], _ => true
  | _ :: _, [] => false
  | a :: as, b :: bs => a == b && hasPfx as bs

/-- Substring test (Python `sub in s`, on characters). -/
def containsSub (sub : List Char) : List Char → Bool
  | [] => sub.isEmpty
  | c :: cs => hasPfx sub (c :: cs) || containsSub sub cs

/-- First occurrence of `sep`: returns the part before it and the part
after it, or `none` when `sep` does not occur. -/
def splitFirst (sep : List Char) : List Char → Option (List Char × List Char)
  | [] => none
  | c :: cs =>
    if hasPfx sep (c :: cs) then some ([], (c :: cs).drop sep.length)
    else
      match splitFirst sep cs with
      | some (b, a) => some (c :: b, a)
      | none => none

/-- Fuel-driven worker for Python `str.split(sep)` (non-empty `sep`):
cut at every occurrence of the separator, left to right. -/
def pySplitAux (sep : List Char) : Nat → List Char → List (List Char)
  | 0, l => [l]
  | Nat.succ fuel, l =>
    match splitFirst sep l with
    | none => [l]
    | some (b, a) => b :: pySplitAux sep fuel a

/-- Python `s.split(sep)` for a non-empty separator. -/
def pySplit (s sep : String) : List String :=
  (pySplitAux sep.data s.data.length s.data).map (fun l => String.mk l)

/-- Python `sep.join(parts)`. -/
def pyJoin (sep : String) : List String → String
  | [] => ""
  | [x] => x
  | x :: y :: xs => x ++ sep ++ pyJoin sep (y :: xs)

/-! ### The timestamp pattern

`re.match` against `^\d\x7b2\x7d-...` at line start; the pattern is a fixed
sequence of 29 single-character classes, so it is a pointwise test. -/

/-- Digit class of the timestamp regex. -/
def dg (c : Char) : Bool := c.isDigit

/-- The 29 single-character classes of
`dd-dd-dddd hh:mm:ss.mmm [+-]dddd`. -/
def tsPat : List (Char → Bool) :=
  [dg, dg, (· == '-'), dg, dg, (· == '-'), dg, dg, dg, dg, (· == ' '),
   dg, dg, (· == ':'), dg, dg, (· == ':'), dg, dg, (· == '.'), dg, dg, dg,
   (· == ' '), (fun c => c == '+' || c == '-'), dg, dg, dg, dg]

/-- Match a list of single-character classes at the front of the input,
returning the consumed characters. -/
def matchPat : List (Char → Bool) → List Char → Option (List Char)
  | [], _ => some []
  | _ :: _, [] => none
  | p :: ps, c :: cs =>
    if p c then (matchPat ps cs).map (fun l => c :: l) else none

/-- `re.match` of the timestamp pattern, anchored at line start
(source line 70). -/
def matchTimestamp (s : String) : Option String :=
  (matchPat tsPat s.data).map (fun l => String.mk l)

/-! ### `parse_attributes` (source lines 27-38)

The scanner of `([a-zA-Z0-9_]+)=("([^"]*)"|([^"\s]+))` under
`re.finditer`: at each position try to match a key, an equals sign and
a quoted or unquoted value; on success continue after the match, on
failure advance one character.  Since none of the character classes
contains the character that must follow it, greedy matching without
backtracking is exact. -/

/-- The key class `[a-zA-Z0-9_]`. -/
def isWordChar (c : Char) : Bool :=
  c.isAlpha || c.isDigit || c == '_'

/-- Attempt one `key=value` match at the current position. Returns the
key, the value and the rest of the input after the match. -/
def tryMatch (l : List Char) : Option (String × String × List Char) :=
  match l.span isWordChar with
  | ([], _) => none
  | (k, '=' :: rest2) =>
    match rest2 with
    | '"' :: rest3 =>
      (match rest3.span (fun c => c != '"') with
       | (content, '"' :: rest5) => some (⟨k⟩, ⟨content⟩, rest5)
       | _ => none)
    | _ =>
      (match rest2.span (fun c => !(c == '"') && !(pyIsSpace c)) with
       | ([], _) => none
       | (v, rest3) => some (⟨k⟩, ⟨v⟩, rest3))
  | _ => none

/-- Scan the whole input, emitting matches left to right. -/
def scanAttrsAux : Nat → List Char → List (String × String)
  | 0, _ => []
  | _, [] => []
  | Nat.succ fuel, c :: cs =>
    match tryMatch (c :: cs) with
    | some (k, v, rest) => (k, v) :: scanAttrsAux fuel rest
    | none => scanAttrsAux fuel cs

/-- `parse_attributes`: all `key=value` matches of the attribute string,
in order.  The Python dictionary is kept as this association list; a
repeated key overwrites, so lookups take the last binding. -/
def parse_attributes (s : String) : List (String × String) :=
  scanAttrsAux s.data.length s.data

/-! ### Data model -/

/-- The parsed attribute dictionary. -/
abbrev AttrMap := List (String × String)

/-- One parsed entry: the attribute dictionary and the raw attribute
substring it came from (source line 107). -/
abbrev Entry := AttrMap × String

/-- Python `dict.get`: the value of the last binding of the key. -/
def getAttr (m : AttrMap) (k : String) : Option String :=
  (m.reverse.find? (fun kv => kv.1 == k)).map (fun kv => kv.2)

/-! ### Severity reduction (source lines 113-133) -/

/-- The color of an entry: attribute `color`, defaulting to `green`
when absent, lower-cased (source line 118). -/
def colorOf (e : Entry) : String :=
  pyLower ((getAttr e.1 "color").getD "green")

/-- The precedence table `red 2, yellow 1, green 0` (source line 113). -/
def color_precedence (c : String) : Option Nat :=
  if c = "red" then some 2
  else if c = "yellow" then some 1
  else if c = "green" then some 0
  else none

/-- One step of the worst-severity loop (source lines 117-123): update
the running worst when the color is in the table and strictly worse. -/
def rstep (acc : String × Nat) (e : Entry) : String × Nat :=
  match color_precedence (colorOf e) with
  | some lvl => if acc.2 < lvl then (colorOf e, lvl) else acc
  | none => acc

/-- The worst color and level over a block, starting from green. -/
def worst (entries : List Entry) : String × Nat :=
  entries.foldl rstep ("green", 0)

/-- `overall_color` (source line 125). -/
def overall_color (entries : List Entry) : String :=
  (worst entries).1

/-- `status_map.get(overall_color, (3, UNKNOWN))` (source lines 127-133). -/
def status_map (c : String) : Nat × String :=
  if c = "green" then (0, "OK")
  else if c = "yellow" then (1, "WARN")
  else if c = "red" then (2, "CRIT")
  else (3, "UNKNOWN")

/-- Status code and text of a block. -/
def statusOf (entries : List Entry) : Nat × String :=
  status_map (overall_color entries)

/-! ### Reporter (source lines 136-160) -/

/-- `output_summary` before any issues section (source line 136). -/
def output_summary (entries : List Entry) (ts : String) : String :=
  (statusOf entries).2 ++ ": Overall status is " ++ pyUpper (overall_color entries)
    ++ " (Log Time: " ++ ts ++ ")"

/-- The problem entries: collected only when the status code is
positive; an entry is a problem when its color is not `green`
(source lines 141-144). -/
def problem_entries (entries : List Entry) : List Entry :=
  if 0 < (statusOf entries).1 then
    entries.filter (fun e => colorOf e != "green")
  else []

/-- `problem_lines_raw` (source line 145). -/
def problem_lines_raw (entries : List Entry) : List String :=
  (problem_entries entries).map (fun e => e.2)

/-- Python `a or b` on an optional string: the string when present and
non-empty, the fallback otherwise. -/
def orFalsy (o : Option String) (dflt : String) : String :=
  match o with
  | some s => if s = "" then dflt else s
  | none => dflt

/-- Display name of a problem entry: `feature`, else `node_path`, else
the literal `Component` (source line 147, Python `or` chain). -/
def displayName (m : AttrMap) : String :=
  orFalsy (getAttr m "feature") (orFalsy (getAttr m "node_path") "Component")

/-- One item of the issues list (source lines 146-148). -/
def itemString (e : Entry) : String :=
  "[" ++ pyUpper ((getAttr e.1 "color").getD "N/A") ++ "] " ++ displayName e.1

/-- `problems_summary_list` (source line 148). -/
def problems_summary_list (entries : List Entry) : List String :=
  (problem_entries entries).map itemString

/-- The summary after appending the issues section
(source lines 151-152). -/
def summary_with_issues (entries : List Entry) (ts : String) : String :=
  output_summary entries ts ++ " (Issues: "
    ++ pyJoin ", " ((problems_summary_list entries).take 2) ++ "...)"

/-- `final_output` (source lines 150-157): with problems, the augmented
summary and the raw problem lines joined by the literal two-character
sequence backslash-n; otherwise the plain summary. -/
def final_output (entries : List Entry) (ts : String) : String :=
  if problem_lines_raw entries = [] then output_summary entries ts
  else
    summary_with_issues entries ts ++ "\\n" ++ pyJoin "\\n" (problem_lines_raw entries)

/-- The printed line (source line 160). -/
def report (entries : List Entry) (ts : String) : String :=
  toString (statusOf entries).1 ++ " \"Splunk Health\" - " ++ final_output entries ts

/-! ### Log block selection (source lines 40-84) -/

/-- Result of `subprocess.run(["tail", ...])`. -/
structure ProcResult where
  returncode : Int
  stdout : String
  stderr : String

/-- The marker substring (source line 59). -/
def MARKER : String := "PeriodicHealthReporter"

/-- The attribute separator (source line 103). -/
def SEP : String := "PeriodicHealthReporter - "

/-- The tailed lines that contain the marker (source lines 58-59). -/
def filteredLines (p : ProcResult) : List String :=
  (pySplit (pyStrip p.stdout) "\n").filter (fun l => containsSub MARKER.data l.data)

/-- The trailing run of lines starting with the timestamp: scan from
the end, keep while the line starts with the timestamp, stop at the
first mismatch; order is preserved (source lines 76-81). -/
def latestBlock (lines : List String) (pfx : String) : List String :=
  (lines.reverse.takeWhile (fun l => hasPfx pfx.data l.data)).reverse

/-- `get_latest_log_block` (source lines 40-84): either an error string
or the latest block together with its timestamp. -/
def get_latest_log_block (p : ProcResult) : Except String (List String × String) :=
  if p.returncode ≠ 0 then
    Except.error ("Error running 'tail' command: " ++ p.stderr)
  else
    match (filteredLines p).getLast? with
    | none =>
      Except.error "No 'PeriodicHealthReporter' entries found in the last 200 lines of the log."
    | some last_line =>
      match matchTimestamp last_line with
      | none => Except.error "Could not determine timestamp from the last log entry."
      | some pfx => Except.ok (latestBlock (filteredLines p) pfx, pfx)

/-- Entry extraction from the block (source lines 101-107): split on the
separator, keep lines with at least two parts, strip the second part. -/
def extractEntries (block : List String) : List Entry :=
  block.filterMap (fun line =>
    match pySplit line SEP with
    | _ :: second :: _ =>
      some (parse_attributes (pyStrip second), pyStrip second)
    | _ => none)

/-- `main` (source lines 87-160), as the text it prints. -/
def main_output (p : ProcResult) : String :=
  match get_latest_log_block p with
  | Except.error e => "3 \"Splunk Health\" - UNKNOWN: " ++ e
  | Except.ok (latest_block, timestamp) =>
    if latest_block = [] then
      "3 \"Splunk Health\" - UNKNOWN: Could not find a valid health report block in the log."
    else
      match extractEntries latest_block with
      | [] => "3 \"Splunk Health\" - UNKNOWN: No attributes parsed from the latest report."
      | e :: es => report (e :: es) timestamp

/-! ### Helper definitions for the statements and sample inputs -/

/-- Does some entry of the block carry the given (lowered, defaulted)
color? -/
def hasColor (c : String) (l : List Entry) : Bool :=
  l.any (fun e => colorOf e == c)

/-- A green sample entry. -/
def eG : Entry := ([("color", "green"), ("feature", "A")], "color=green feature=A")

/-- A yellow sample entry (mixed case, exercising the lowering). -/
def eY : Entry := ([("color", "Yellow"), ("feature", "C")], "color=Yellow feature=C")

/-- A red sample entry. -/
def eR : Entry := ([("color", "red"), ("feature", "B")], "color=red feature=B")

/-- A sample entry whose color is recognised by no table. -/
def eP : Entry := ([("color", "purple"), ("node_path", "np")], "color=purple node_path=np")

deriving instance DecidableEq for Except

/-- Sample tail output, line 1: older timestamp. -/
def wL1 : String := "01-01-2025 10:00:00.000 +0000 A PeriodicHealthReporter - color=green feature=F1"

/-- Sample tail output, line 2: older timestamp. -/
def wL2 : String := "01-01-2025 10:00:00.000 +0000 B PeriodicHealthReporter - color=green feature=F2"

/-- Sample tail output, line 3: most recent timestamp. -/
def wL3 : String := "01-01-2025 11:00:00.000 +0000 C PeriodicHealthReporter - color=green feature=F3"

/-- Sample tail output, line 4: most recent timestamp. -/
def wL4 : String := "01-01-2025 11:00:00.000 +0000 D PeriodicHealthReporter - color=yellow feature=F4"

/-- Sample tail output, line 5: most recent timestamp. -/
def wL5 : String := "01-01-2025 11:00:00.000 +0000 E PeriodicHealthReporter - color=green feature=F5"

/-- Sample successful tail run over the five lines above. -/
def wProc : ProcResult :=
  ⟨0, wL1 ++ "\n" ++ wL2 ++ "\n" ++ wL3 ++ "\n" ++ wL4 ++ "\n" ++ wL5, ""⟩

/-- The timestamp of the three most recent sample lines. -/
def wPfx : String := "01-01-2025 11:00:00.000 +0000"

/-! ### String lemmas -/

theorem data_append (a b : String) : (a ++ b).data = a.data ++ b.data := rfl

theorem sapp_assoc (a b c : String) : a ++ b ++ c = a ++ (b ++ c) :=
  String.ext (by simp [data_append])

/-! ### Severity reduction lemmas -/

theorem rstep_red (e : Entry) : rstep ("red", 2) e = ("red", 2) := by
  unfold rstep color_precedence
  split_ifs with h1 h2 h3 <;> simp

theorem rstep_yellow (e : Entry) :
    rstep ("yellow", 1) e = if colorOf e = "red" then ("red", 2) else ("yellow", 1) := by
  unfold rstep color_precedence
  split_ifs with h1 h2 h3 <;> simp [h1]

theorem rstep_green (e : Entry) :
    rstep ("green", 0) e =
      if colorOf e = "red" then ("red", 2)
      else if colorOf e = "yellow" then ("yellow", 1)
      else ("green", 0) := by
  unfold rstep color_precedence
  split_ifs with h1 h2 h3 <;> simp_all

theorem foldl_red (l : List Entry) : l.foldl rstep ("red", 2) = ("red", 2) := by
  induction l with
  | nil => rfl
  | cons e es ih => rw [List.foldl_cons, rstep_red]; exact ih

theorem foldl_yellow (l : List Entry) :
    l.foldl rstep ("yellow", 1) =
      if hasColor "red" l then ("red", 2) else ("yellow", 1) := by
  induction l with
  | nil => simp [hasColor]
  | cons e es ih =>
    rw [List.foldl_cons, rstep_yellow]
    by_cases h : colorOf e = "red"
    · rw [if_pos h, foldl_red, if_pos (by simp [hasColor, h])]
    · rw [if_neg h, ih]
      have heq : hasColor "red" (e :: es) = hasColor "red" es := by
        simp [hasColor, h]
      rw [heq]

theorem foldl_green (l : List Entry) :
    l.foldl rstep ("green", 0) =
      if hasColor "red" l then ("red", 2)
      else if hasColor "yellow" l then ("yellow", 1)
      else ("green", 0) := by
  induction l with
  | nil => simp [hasColor]
  | cons e es ih =>
    rw [List.foldl_cons, rstep_green]
    by_cases h1 : colorOf e = "red"
    · rw [if_pos h1, foldl_red, if_pos (by simp [hasColor, h1])]
    · rw [if_neg h1]
      by_cases h2 : colorOf e = "yellow"
      · rw [if_pos h2, foldl_yellow]
        have hr : hasColor "red" (e :: es) = hasColor "red" es := by simp [hasColor, h1]
        have hy : hasColor "yellow" (e :: es) = true := by simp [hasColor, h2]
        rw [hr, hy]
        by_cases h3 : hasColor "red" es = true
        · rw [if_pos h3, if_pos h3]
        · rw [if_neg h3, if_neg h3, if_pos rfl]
      · rw [if_neg h2, ih]
        have hr : hasColor "red" (e :: es) = hasColor "red" es := by simp [hasColor, h1]
        have hy : hasColor "yellow" (e :: es) = hasColor "yellow" es := by simp [hasColor, h2]
        rw [hr, hy]

theorem overall_cases (entries : List Entry) :
    overall_color entries =
      if hasColor "red" entries then "red"
      else if hasColor "yellow" entries then "yellow"
      else "green" := by
  unfold overall_color worst
  rw [foldl_green]
  split_ifs <;> rfl

theorem hasColor_true_iff (c : String) (l : List Entry) :
    hasColor c l = true ↔ ∃ e ∈ l, colorOf e = c := by
  simp [hasColor, List.any_eq_true]

theorem hasColor_false_of (c : String) (l : List Entry)
    (h : ∀ e ∈ l, colorOf e ≠ c) : hasColor c l = false := by
  rw [← Bool.not_eq_true, hasColor_true_iff]
  rintro ⟨e, he, hc⟩
  exact h e he hc

/-! ### Claim theorems -/

/-- Claim C1: the severity reduction computes the maximum color over the
block.  For every non-empty sequence of entries, when some entry color
(lowercased, defaulting to green) is red the overall color is red with
status code 2, and when some entry is yellow and none is red the overall
color is yellow with status code 1, independently of the order of the
entries and of the green entries mixed in. -/
theorem severity_reduction_is_max (entries : List Entry) (hne : entries ≠ []) :
    ((∃ e ∈ entries, colorOf e = "red") →
        overall_color entries = "red" ∧ (statusOf entries).1 = 2)
  ∧ ((∃ e ∈ entries, colorOf e = "yellow") → (∀ e ∈ entries, colorOf e ≠ "red") →
        overall_color entries = "yellow" ∧ (statusOf entries).1 = 1) := by
  constructor
  · intro hex
    have hr : hasColor "red" entries = true := (hasColor_true_iff _ _).mpr hex
    have ho : overall_color entries = "red" := by rw [overall_cases, if_pos hr]
    refine ⟨ho, ?_⟩
    unfold statusOf
    rw [ho]
    decide
  · intro hex hnone
    have hy : hasColor "yellow" entries = true := (hasColor_true_iff _ _).mpr hex
    have hr : hasColor "red" entries = false := hasColor_false_of _ _ hnone
    have ho : overall_color entries = "yellow" := by
      rw [overall_cases, if_neg (by rw [hr]; exact Bool.false_ne_true), if_pos hy]
    refine ⟨ho, ?_⟩
    unfold statusOf
    rw [ho]
    decide

/-- Sample block for the claim above: a red and a yellow entry mixed with
a green one force a red overall color and status code 2; without the red
entry the yellow one forces yellow and code 1. -/
theorem severity_reduction_is_max_sample :
    (([eR, eY, eG] : List Entry) ≠ [])
  ∧ (((∃ e ∈ [eR, eY, eG], colorOf e = "red") →
        overall_color [eR, eY, eG] = "red" ∧ (statusOf [eR, eY, eG]).1 = 2)
    ∧ ((∃ e ∈ [eR, eY, eG], colorOf e = "yellow") →
          (∀ e ∈ [eR, eY, eG], colorOf e ≠ "red") →
        overall_color [eR, eY, eG] = "yellow" ∧ (statusOf [eR, eY, eG]).1 = 1)) :=
  ⟨by decide, severity_reduction_is_max [eR, eY, eG] (by decide)⟩

/-- Claim C9: the (3, UNKNOWN) fallback of the status lookup is
unreachable: for every non-empty block the reduced color is green,
yellow or red, and the status code of the non-error path is 0, 1 or 2. -/
theorem status_fallback_unreachable (entries : List Entry) (hne : entries ≠ []) :
    (overall_color entries = "green" ∨ overall_color entries = "yellow"
      ∨ overall_color entries = "red")
  ∧ ((statusOf entries).1 = 0 ∨ (statusOf entries).1 = 1 ∨ (statusOf entries).1 = 2)
  ∧ status_map (overall_color entries) ≠ (3, "UNKNOWN") := by
  unfold statusOf
  rw [overall_cases]
  split_ifs <;> refine ⟨?_, ?_, ?_⟩ <;> decide

/-- Claim C4: when every entry of the block is green the overall color
is green, the status code is 0 and the printed line is exactly the OK
summary with the timestamp, with no issues section and no detail
lines. -/
theorem all_green_report (entries : List Entry) (ts : String)
    (hall : ∀ e ∈ entries, colorOf e = "green") :
    report entries ts
      = "0 \"Splunk Health\" - OK: Overall status is GREEN (Log Time: " ++ ts ++ ")" := by
  have hr : hasColor "red" entries = false :=
    hasColor_false_of _ _ (fun e he hc => by rw [hall e he] at hc; exact absurd hc (by decide))
  have hy : hasColor "yellow" entries = false :=
    hasColor_false_of _ _ (fun e he hc => by rw [hall e he] at hc; exact absurd hc (by decide))
  have ho : overall_color entries = "green" := by
    rw [overall_cases, if_neg (by rw [hr]; exact Bool.false_ne_true),
        if_neg (by rw [hy]; exact Bool.false_ne_true)]
  have hs : statusOf entries = (0, "OK") := by
    unfold statusOf; rw [ho]; decide
  have hpe : problem_entries entries = [] := by
    unfold problem_entries; rw [hs]; simp
  have hpl : problem_lines_raw entries = [] := by
    unfold problem_lines_raw; rw [hpe]; rfl
  unfold report final_output output_summary
  rw [hs, hpl, if_pos rfl, ho]
  apply String.ext
  simp only [data_append]
  simp only [← List.append_assoc]
  congr 1

/-- Sample block for the theorem above: one green entry, timestamp T. -/
theorem all_green_report_sample :
    (∀ e ∈ ([eG] : List Entry), colorOf e = "green")
  ∧ report [eG] "T"
      = "0 \"Splunk Health\" - OK: Overall status is GREEN (Log Time: " ++ "T" ++ ")" :=
  ⟨by decide, all_green_report [eG] "T" (by decide)⟩

/-- Claim C10: a block whose every entry has an unrecognized color
(neither green nor yellow nor red after lowering) is reported OK with
status code 0 and no issues section or detail lines; entries with
unrecognized colors appear as problems only when some entry with a
recognized yellow or red color pushes the status code above 0. -/
theorem unrecognized_colors_ok (entries : List Entry) (ts : String)
    (hall : ∀ e ∈ entries,
      colorOf e ≠ "green" ∧ colorOf e ≠ "yellow" ∧ colorOf e ≠ "red") :
    report entries ts
      = "0 \"Splunk Health\" - OK: Overall status is GREEN (Log Time: " ++ ts ++ ")"
  ∧ (∀ es : List Entry, problem_entries es ≠ [] →
      ∃ e ∈ es, colorOf e = "yellow" ∨ colorOf e = "red") := by
  constructor
  · have hr : hasColor "red" entries = false :=
      hasColor_false_of _ _ (fun e he => (hall e he).2.2)
    have hy : hasColor "yellow" entries = false :=
      hasColor_false_of _ _ (fun e he => (hall e he).2.1)
    have ho : overall_color entries = "green" := by
      rw [overall_cases, if_neg (by rw [hr]; exact Bool.false_ne_true),
          if_neg (by rw [hy]; exact Bool.false_ne_true)]
    have hs : statusOf entries = (0, "OK") := by
      unfold statusOf; rw [ho]; decide
    have hpe : problem_entries entries = [] := by
      unfold problem_entries; rw [hs]; simp
    have hpl : problem_lines_raw entries = [] := by
      unfold problem_lines_raw; rw [hpe]; rfl
    unfold report final_output output_summary
    rw [hs, hpl, if_pos rfl, ho]
    apply String.ext
    simp only [data_append]
    simp only [← List.append_assoc]
    congr 1
  · intro es hne2
    unfold problem_entries at hne2
    by_cases hc : 0 < (statusOf es).1
    · cases hhr : hasColor "red" es with
      | true =>
        obtain ⟨e, he, hce⟩ := (hasColor_true_iff _ _).mp hhr
        exact ⟨e, he, Or.inr hce⟩
      | false =>
        cases hhy : hasColor "yellow" es with
        | true =>
          obtain ⟨e, he, hce⟩ := (hasColor_true_iff _ _).mp hhy
          exact ⟨e, he, Or.inl hce⟩
        | false =>
          exfalso
          have ho : overall_color es = "green" := by
            rw [overall_cases, if_neg (by rw [hhr]; exact Bool.false_ne_true),
                if_neg (by rw [hhy]; exact Bool.false_ne_true)]
          have hs : statusOf es = (0, "OK") := by
            unfold statusOf; rw [ho]; decide
          rw [hs] at hc
          exact absurd hc (by decide)
    · rw [if_neg hc] at hne2
      exact absurd rfl hne2

/-- Sample block for the theorem above: a single purple entry is
reported OK with no details. -/
theorem unrecognized_colors_ok_sample :
    (∀ e ∈ ([eP] : List Entry),
      colorOf e ≠ "green" ∧ colorOf e ≠ "yellow" ∧ colorOf e ≠ "red")
  ∧ (report [eP] "T"
      = "0 \"Splunk Health\" - OK: Overall status is GREEN (Log Time: " ++ "T" ++ ")"
    ∧ (∀ es : List Entry, problem_entries es ≠ [] →
        ∃ e ∈ es, colorOf e = "yellow" ∨ colorOf e = "red")) :=
  ⟨by decide, unrecognized_colors_ok [eP] "T" (by decide)⟩

/-- Sample block for the theorem above: a single green entry. -/
theorem status_fallback_unreachable_sample :
    (([eG] : List Entry) ≠ [])
  ∧ ((overall_color [eG] = "green" ∨ overall_color [eG] = "yellow"
        ∨ overall_color [eG] = "red")
    ∧ ((statusOf [eG]).1 = 0 ∨ (statusOf [eG]).1 = 1 ∨ (statusOf [eG]).1 = 2)
    ∧ status_map (overall_color [eG]) ≠ (3, "UNKNOWN")) :=
  ⟨by decide, status_fallback_unreachable [eG] (by decide)⟩

/-! ### Newline-freedom lemmas -/

theorem toUpper_eq_nl {c : Char} (h : Char.toUpper c = '\n') : c = '\n' := by
  have hdef : Char.toUpper c
      = (if c.toNat ≥ 97 ∧ c.toNat ≤ 122 then Char.ofNat (c.toNat - 32) else c) := rfl
  rw [hdef] at h
  split_ifs at h with hc
  · exfalso
    obtain ⟨h1, h2⟩ := hc
    obtain ⟨n, hn⟩ : ∃ n, c.toNat = n := ⟨_, rfl⟩
    rw [hn] at h h1 h2
    interval_cases n <;> exact absurd h (by decide)
  · exact h

theorem nl_notin_append {a b : String} (ha : '\n' ∉ a.data) (hb : '\n' ∉ b.data) :
    '\n' ∉ (a ++ b).data := by
  rw [data_append]
  intro hm
  rcases List.mem_append.mp hm with hm | hm
  · exact ha hm
  · exact hb hm

theorem nl_notin_pyJoin {sep : String} (hs : '\n' ∉ sep.data) (l : List String)
    (hl : ∀ x ∈ l, '\n' ∉ x.data) : '\n' ∉ (pyJoin sep l).data := by
  induction l with
  | nil => simp [pyJoin]
  | cons x xs ih =>
    cases xs with
    | nil => exact hl x (by simp)
    | cons y ys =>
      exact nl_notin_append (nl_notin_append (hl x (by simp)) hs)
        (ih (fun z hz => hl z (by simp [hz])))

theorem nl_notin_pyUpper {s : String} (h : '\n' ∉ s.data) : '\n' ∉ (pyUpper s).data := by
  intro hm
  obtain ⟨c, hc, heq⟩ := List.mem_map.mp hm
  exact h (toUpper_eq_nl heq ▸ hc)

/-! ### Attribute lookup lemmas -/

theorem getAttr_mem {m : AttrMap} {k v : String} (h : getAttr m k = some v) :
    ∃ kv ∈ m, kv.2 = v := by
  unfold getAttr at h
  cases hf : m.reverse.find? (fun kv => kv.1 == k) with
  | none => rw [hf] at h; exact absurd h (by simp)
  | some kv =>
    rw [hf] at h
    exact ⟨kv, List.mem_reverse.mp (List.mem_of_find?_eq_some hf), Option.some.inj h⟩

theorem orFalsy_none (d : String) : orFalsy none d = d := rfl

theorem orFalsy_some_empty (d : String) : orFalsy (some "") d = d := rfl

theorem orFalsy_some {v : String} (d : String) (hv : v ≠ "") : orFalsy (some v) d = v := by
  show (if v = "" then d else v) = v
  rw [if_neg hv]

theorem displayName_cases (m : AttrMap) :
    displayName m = "Component" ∨ ∃ kv ∈ m, displayName m = kv.2 := by
  unfold displayName
  cases hf : getAttr m "feature" with
  | some v =>
    by_cases hv : v = ""
    · rw [hv, orFalsy_some_empty]
      cases hn : getAttr m "node_path" with
      | some w =>
        by_cases hw : w = ""
        · rw [hw, orFalsy_some_empty]; left; rfl
        · rw [orFalsy_some _ hw]
          obtain ⟨kv, hkv, hkv2⟩ := getAttr_mem hn
          exact Or.inr ⟨kv, hkv, hkv2.symm⟩
      | none => rw [orFalsy_none]; left; rfl
    · rw [orFalsy_some _ hv]
      obtain ⟨kv, hkv, hkv2⟩ := getAttr_mem hf
      exact Or.inr ⟨kv, hkv, hkv2.symm⟩
  | none =>
    rw [orFalsy_none]
    cases hn : getAttr m "node_path" with
    | some w =>
      by_cases hw : w = ""
      · rw [hw, orFalsy_some_empty]; left; rfl
      · rw [orFalsy_some _ hw]
        obtain ⟨kv, hkv, hkv2⟩ := getAttr_mem hn
        exact Or.inr ⟨kv, hkv, hkv2.symm⟩
    | none => rw [orFalsy_none]; left; rfl

theorem mem_problem_entries {entries : List Entry} {e : Entry}
    (h : e ∈ problem_entries entries) : e ∈ entries := by
  unfold problem_entries at h
  by_cases hc : 0 < (statusOf entries).1
  · rw [if_pos hc] at h; exact (List.mem_filter.mp h).1
  · rw [if_neg hc] at h; exact absurd h (List.not_mem_nil _)

theorem nl_notin_itemString {e : Entry} (hattr : ∀ kv ∈ e.1, '\n' ∉ kv.2.data) :
    '\n' ∉ (itemString e).data := by
  unfold itemString
  refine nl_notin_append (nl_notin_append (nl_notin_append (by decide) ?_) (by decide)) ?_
  · apply nl_notin_pyUpper
    cases hc : getAttr e.1 "color" with
    | none => decide
    | some v =>
      obtain ⟨kv, hkv, hv⟩ := getAttr_mem hc
      show '\n' ∉ v.data
      rw [← hv]
      exact hattr kv hkv
  · rcases displayName_cases e.1 with h | ⟨kv, hkv, h⟩
    · rw [h]; decide
    · rw [h]; exact hattr kv hkv

/-! ### Split lemmas -/

theorem splitFirst_nil (sep : List Char) : splitFirst sep [] = none := rfl

theorem splitFirst_length_lt (sep : List Char) (hs : sep ≠ []) :
    ∀ (l b a : List Char), splitFirst sep l = some (b, a) → a.length < l.length := by
  intro l
  induction l with
  | nil => intro b a h; exact absurd h (by simp [splitFirst])
  | cons c cs ih =>
    intro b a h
    unfold splitFirst at h
    by_cases hp : hasPfx sep (c :: cs) = true
    · rw [if_pos hp] at h
      have h2 := Option.some.inj h
      rw [Prod.mk.injEq] at h2
      obtain ⟨hb, ha⟩ := h2
      rw [← ha, List.length_drop]
      have hposs : 0 < sep.length := List.length_pos.mpr hs
      simp only [List.length_cons]
      omega
    · rw [if_neg hp] at h
      cases hsf : splitFirst sep cs with
      | none => rw [hsf] at h; exact absurd h (by simp)
      | some ba =>
        obtain ⟨b1, a1⟩ := ba
        rw [hsf] at h
        have h2 := Option.some.inj h
        rw [Prod.mk.injEq] at h2
        obtain ⟨hb, ha⟩ := h2
        have hlt := ih b1 a1 hsf
        rw [← ha]
        simp only [List.length_cons]
        omega

theorem pySplitAux_none {sep : List Char} (fuel : Nat) (l : List Char)
    (h : splitFirst sep l = none) : pySplitAux sep fuel l = [l] := by
  cases fuel with
  | zero => rfl
  | succ f => unfold pySplitAux; rw [h]

theorem pySplitAux_some {sep : List Char} (f : Nat) (l b a : List Char)
    (h : splitFirst sep l = some (b, a)) :
    pySplitAux sep (f + 1) l = b :: pySplitAux sep f a := by
  have hdef : pySplitAux sep (f + 1) l
      = (match splitFirst sep l with
         | none => [l]
         | some (b2, a2) => b2 :: pySplitAux sep f a2) := rfl
  rw [hdef, h]

/-! ### Block selection lemmas -/

theorem latest_block_inversion (p : ProcResult) (block : List String) (pfx : String)
    (h : get_latest_log_block p = Except.ok (block, pfx)) :
    block = latestBlock (filteredLines p) pfx
  ∧ ∃ ll, (filteredLines p).getLast? = some ll ∧ matchTimestamp ll = some pfx := by
  unfold get_latest_log_block at h
  split at h
  · exact Except.noConfusion h
  · split at h
    · exact Except.noConfusion h
    · split at h
      · exact Except.noConfusion h
      · rename_i x1 ll hlast x2 pfx2 hts
        have h2 := Except.ok.inj h
        rw [Prod.mk.injEq] at h2
        obtain ⟨hb, hp⟩ := h2
        subst hp
        exact ⟨hb.symm, ll, hlast, hts⟩

/-- Claim C2: the selected block is the maximal contiguous trailing run
of the filtered lines sharing the timestamp of the last line.  Every
line of the block starts with the extracted timestamp, the block is a
suffix of the filtered sequence, and the line just before the block
does not start with the timestamp, so an earlier line sharing the
timestamp but separated by a mismatching line is never included. -/
theorem block_is_trailing_run (p : ProcResult) (block : List String) (pfx : String)
    (h : get_latest_log_block p = Except.ok (block, pfx)) :
    (∃ ll, (filteredLines p).getLast? = some ll ∧ matchTimestamp ll = some pfx)
  ∧ (∀ l ∈ block, hasPfx pfx.data l.data = true)
  ∧ List.IsSuffix block (filteredLines p)
  ∧ (∀ pre x, filteredLines p = pre ++ block → pre.getLast? = some x →
      hasPfx pfx.data x.data = false) := by
  obtain ⟨hb, hex⟩ := latest_block_inversion p block pfx h
  subst hb
  refine ⟨hex, ?_, ?_, ?_⟩
  · intro l hl
    unfold latestBlock at hl
    rw [List.mem_reverse] at hl
    have h3 := @List.mem_takeWhile_imp String (fun l => hasPfx pfx.data l.data)
      (filteredLines p).reverse l hl
    exact h3
  · show List.IsSuffix _ _
    unfold latestBlock
    refine ⟨(List.dropWhile (fun l => hasPfx pfx.data l.data)
      (filteredLines p).reverse).reverse, ?_⟩
    rw [← List.reverse_append, List.takeWhile_append_dropWhile, List.reverse_reverse]
  · intro pre x hsplit hlastx
    have hrev : (filteredLines p).reverse
        = (latestBlock (filteredLines p) pfx).reverse ++ pre.reverse := by
      conv_lhs => rw [hsplit]
      rw [List.reverse_append]
    have hblockrev : (latestBlock (filteredLines p) pfx).reverse
        = List.takeWhile (fun l => hasPfx pfx.data l.data) (filteredLines p).reverse := by
      unfold latestBlock
      rw [List.reverse_reverse]
    have h1 : List.takeWhile (fun l => hasPfx pfx.data l.data) (filteredLines p).reverse
        ++ pre.reverse = (filteredLines p).reverse := by
      rw [← hblockrev]
      exact hrev.symm
    have h2 : List.takeWhile (fun l => hasPfx pfx.data l.data) (filteredLines p).reverse
        ++ List.dropWhile (fun l => hasPfx pfx.data l.data) (filteredLines p).reverse
        = (filteredLines p).reverse :=
      List.takeWhile_append_dropWhile _ _
    have hdw : pre.reverse
        = List.dropWhile (fun l => hasPfx pfx.data l.data) (filteredLines p).reverse :=
      List.append_cancel_left (h1.trans h2.symm)
    have hx : (List.dropWhile (fun l => hasPfx pfx.data l.data)
        (filteredLines p).reverse).head? = some x := by
      rw [← hdw, List.head?_reverse]
      exact hlastx
    have hnot := List.head?_dropWhile_not
      (fun l => hasPfx pfx.data l.data) (filteredLines p).reverse
    rw [hx] at hnot
    exact hnot

set_option maxRecDepth 100000 in
/-- Sample run for the theorem above: five lines with timestamps in the
shape T1 T1 T2 T2 T2 select exactly the three T2 lines, in order. -/
theorem block_is_trailing_run_sample :
    (get_latest_log_block wProc = Except.ok ([wL3, wL4, wL5], wPfx))
  ∧ ((∃ ll, (filteredLines wProc).getLast? = some ll ∧ matchTimestamp ll = some wPfx)
    ∧ (∀ l ∈ [wL3, wL4, wL5], hasPfx wPfx.data l.data = true)
    ∧ List.IsSuffix [wL3, wL4, wL5] (filteredLines wProc)
    ∧ (∀ pre x, filteredLines wProc = pre ++ [wL3, wL4, wL5] → pre.getLast? = some x →
        hasPfx wPfx.data x.data = false)) :=
  ⟨by decide, block_is_trailing_run wProc [wL3, wL4, wL5] wPfx (by decide)⟩

/-- Claim C3, amended: when the tail utility exits non-zero with stderr
text S the program prints the UNKNOWN line carrying the tail error
message, that is, status code 3, the quoted service name, the text
UNKNOWN, a colon and the tail error message ending in S.  The claim as
stated omits the UNKNOWN marker; see the counterexample. -/
theorem tail_error_prints_unknown (p : ProcResult) (h : p.returncode ≠ 0) :
    main_output p
      = "3 \"Splunk Health\" - UNKNOWN: Error running 'tail' command: " ++ p.stderr := by
  unfold main_output get_latest_log_block
  rw [if_pos h]
  show "3 \"Splunk Health\" - UNKNOWN: "
      ++ ("Error running 'tail' command: " ++ p.stderr) = _
  apply String.ext
  simp only [data_append]
  simp only [← List.append_assoc]
  congr 1

/-- Counterexample to claim C3 as stated: with stderr boom the program
prints the line with the UNKNOWN marker, not the claimed line without
it. -/
theorem tail_error_cex :
    main_output ⟨1, "", "boom"⟩
        = "3 \"Splunk Health\" - UNKNOWN: Error running 'tail' command: boom"
  ∧ main_output ⟨1, "", "boom"⟩
        ≠ "3 \"Splunk Health\" - Error running 'tail' command: boom" := by
  constructor
  · decide
  · decide

/-- Sample failing tail run for the amended claim above. -/
theorem tail_error_prints_unknown_sample :
    ((⟨1, "", "boom"⟩ : ProcResult).returncode ≠ 0)
  ∧ main_output ⟨1, "", "boom"⟩
      = "3 \"Splunk Health\" - UNKNOWN: Error running 'tail' command: " ++ "boom" :=
  ⟨by decide, tail_error_prints_unknown ⟨1, "", "boom"⟩ (by decide)⟩

/-- Claim C7: the attribute parser maps the sample substring to the
expected dictionary, quoted values keep the text between the quotes,
unquoted values the non-whitespace token, and the raw substring is kept
verbatim next to the parsed dictionary. -/
theorem parse_attributes_roundtrip :
    parse_attributes "color=red feature=\"Indexing Pipeline\" count=3"
        = [("color", "red"), ("feature", "Indexing Pipeline"), ("count", "3")]
  ∧ getAttr (parse_attributes "color=red feature=\"Indexing Pipeline\" count=3") "color"
        = some "red"
  ∧ getAttr (parse_attributes "color=red feature=\"Indexing Pipeline\" count=3") "feature"
        = some "Indexing Pipeline"
  ∧ getAttr (parse_attributes "color=red feature=\"Indexing Pipeline\" count=3") "count"
        = some "3"
  ∧ extractEntries
        ["01-01-2025 10:00:00.000 +0000 INFO PeriodicHealthReporter - color=red feature=\"Indexing Pipeline\" count=3"]
      = [([("color", "red"), ("feature", "Indexing Pipeline"), ("count", "3")],
          "color=red feature=\"Indexing Pipeline\" count=3")] := by
  refine ⟨?_, ?_, ?_, ?_, ?_⟩ <;> decide

/-- Claim C5: with a positive status code and at least one problem
entry, the summary gains the issues section listing at most the first
two problems comma-joined, always closed by the three literal dots; the
display name is the feature attribute, else node_path, else the literal
Component. -/
theorem issues_section_format (entries : List Entry) (ts : String)
    (hcode : 0 < (statusOf entries).1)
    (e₀ : Entry) (he : e₀ ∈ entries) (hprob : colorOf e₀ ≠ "green") :
    final_output entries ts
      = output_summary entries ts ++ " (Issues: "
        ++ pyJoin ", "
            (((entries.filter (fun e => colorOf e != "green")).map itemString).take 2)
        ++ "...)" ++ "\\n" ++ pyJoin "\\n" (problem_lines_raw entries)
  ∧ (((entries.filter (fun e => colorOf e != "green")).map itemString).take 2).length ≤ 2
  ∧ (∀ m : AttrMap, ∀ v : String, getAttr m "feature" = some v → v ≠ "" →
      displayName m = v)
  ∧ (∀ m : AttrMap, ∀ v : String, getAttr m "feature" = none →
      getAttr m "node_path" = some v → v ≠ "" → displayName m = v)
  ∧ (∀ m : AttrMap, getAttr m "feature" = none → getAttr m "node_path" = none →
      displayName m = "Component")
  ∧ (∀ e : Entry, itemString e
      = "[" ++ pyUpper ((getAttr e.1 "color").getD "N/A") ++ "] " ++ displayName e.1) := by
  have hpe : problem_entries entries = entries.filter (fun e => colorOf e != "green") := by
    unfold problem_entries; rw [if_pos hcode]
  have hmem : e₀ ∈ problem_entries entries := by
    rw [hpe]
    exact List.mem_filter.mpr ⟨he, (bne_iff_ne).mpr hprob⟩
  have hne2 : problem_lines_raw entries ≠ [] := by
    have hm : e₀.2 ∈ (problem_entries entries).map (fun e => e.2) :=
      List.mem_map.mpr ⟨e₀, hmem, rfl⟩
    intro hL
    unfold problem_lines_raw at hL
    rw [hL] at hm
    exact List.not_mem_nil _ hm
  refine ⟨?_, ?_, ?_, ?_, ?_, ?_⟩
  · unfold final_output
    rw [if_neg hne2]
    unfold summary_with_issues problems_summary_list
    rw [hpe]
  · rw [List.length_take]
    exact min_le_left _ _
  · intro m v hf hv
    unfold displayName
    rw [hf, orFalsy_some _ hv]
  · intro m v hf hn hv
    unfold displayName
    rw [hf, orFalsy_none, hn, orFalsy_some _ hv]
  · intro m hf hn
    unfold displayName
    rw [hf, orFalsy_none, hn, orFalsy_none]
  · intro e; rfl

/-- Sample block for the theorem above: red, yellow and green entries
give two issue items and the closing dots. -/
theorem issues_section_format_sample :
    (0 < (statusOf [eR, eY, eG]).1)
  ∧ (eR ∈ ([eR, eY, eG] : List Entry))
  ∧ colorOf eR ≠ "green"
  ∧ (final_output [eR, eY, eG] "T"
      = output_summary [eR, eY, eG] "T" ++ " (Issues: "
        ++ pyJoin ", "
            ((([eR, eY, eG].filter (fun e => colorOf e != "green")).map itemString).take 2)
        ++ "...)" ++ "\\n" ++ pyJoin "\\n" (problem_lines_raw [eR, eY, eG])
    ∧ ((([eR, eY, eG].filter (fun e => colorOf e != "green")).map itemString).take 2).length ≤ 2
    ∧ (∀ m : AttrMap, ∀ v : String, getAttr m "feature" = some v → v ≠ "" →
        displayName m = v)
    ∧ (∀ m : AttrMap, ∀ v : String, getAttr m "feature" = none →
        getAttr m "node_path" = some v → v ≠ "" → displayName m = v)
    ∧ (∀ m : AttrMap, getAttr m "feature" = none → getAttr m "node_path" = none →
        displayName m = "Component")
    ∧ (∀ e : Entry, itemString e
        = "[" ++ pyUpper ((getAttr e.1 "color").getD "N/A") ++ "] " ++ displayName e.1)) :=
  ⟨by decide, by decide, by decide,
    issues_section_format [eR, eY, eG] "T" (by decide) eR (by decide) (by decide)⟩

/-- Claim C6, amended: when the status code is positive and a problem
entry exists, the final output is the augmented summary, then the two
literal characters backslash and n, then the raw problem substrings
joined by the same two-character sequence, and the whole printed report
holds no real newline when its inputs hold none.  The claim as stated
drops the positive-status condition; see the counterexample, where a
problem entry exists but no details are printed. -/
theorem detail_join_literal (entries : List Entry) (ts : String)
    (hcode : 0 < (statusOf entries).1)
    (e₀ : Entry) (he : e₀ ∈ entries) (hprob : colorOf e₀ ≠ "green")
    (hts : '\n' ∉ ts.data)
    (hraw : ∀ e ∈ entries, '\n' ∉ e.2.data)
    (hattr : ∀ e ∈ entries, ∀ kv ∈ e.1, '\n' ∉ kv.2.data) :
    final_output entries ts
      = summary_with_issues entries ts ++ String.mk ['\\', 'n']
          ++ pyJoin (String.mk ['\\', 'n']) (problem_lines_raw entries)
  ∧ '\n' ∉ (report entries ts).data := by
  have hpe : problem_entries entries = entries.filter (fun e => colorOf e != "green") := by
    unfold problem_entries; rw [if_pos hcode]
  have hmem : e₀ ∈ problem_entries entries := by
    rw [hpe]
    exact List.mem_filter.mpr ⟨he, (bne_iff_ne).mpr hprob⟩
  have hne2 : problem_lines_raw entries ≠ [] := by
    have hm : e₀.2 ∈ (problem_entries entries).map (fun e => e.2) :=
      List.mem_map.mpr ⟨e₀, hmem, rfl⟩
    intro hL
    unfold problem_lines_raw at hL
    rw [hL] at hm
    exact List.not_mem_nil _ hm
  have hpair : (overall_color entries = "yellow" ∧ statusOf entries = (1, "WARN"))
      ∨ (overall_color entries = "red" ∧ statusOf entries = (2, "CRIT")) := by
    by_cases h1 : hasColor "red" entries = true
    · right
      have ho : overall_color entries = "red" := by rw [overall_cases, if_pos h1]
      exact ⟨ho, by unfold statusOf; rw [ho]; decide⟩
    · by_cases h2 : hasColor "yellow" entries = true
      · left
        have ho : overall_color entries = "yellow" := by
          rw [overall_cases, if_neg h1, if_pos h2]
        exact ⟨ho, by unfold statusOf; rw [ho]; decide⟩
      · exfalso
        have ho : overall_color entries = "green" := by
          rw [overall_cases, if_neg h1, if_neg h2]
        have hs0 : statusOf entries = (0, "OK") := by unfold statusOf; rw [ho]; decide
        rw [hs0] at hcode
        exact absurd hcode (by decide)
  have hitems : ∀ x ∈ (problems_summary_list entries).take 2, '\n' ∉ x.data := by
    intro x hx
    have hx2 : x ∈ problems_summary_list entries := List.take_subset _ _ hx
    unfold problems_summary_list at hx2
    obtain ⟨e, he2, hxe⟩ := List.mem_map.mp hx2
    rw [← hxe]
    exact nl_notin_itemString (hattr e (mem_problem_entries he2))
  have hraws : ∀ x ∈ problem_lines_raw entries, '\n' ∉ x.data := by
    intro x hx
    unfold problem_lines_raw at hx
    obtain ⟨e, he2, hxe⟩ := List.mem_map.mp hx
    rw [← hxe]
    exact hraw e (mem_problem_entries he2)
  have hsum : '\n' ∉ (output_summary entries ts).data := by
    unfold output_summary
    rcases hpair with ⟨ho, hs⟩ | ⟨ho, hs⟩ <;>
      rw [ho, hs] <;>
      exact nl_notin_append (nl_notin_append (by decide) hts) (by decide)
  have hfin : '\n' ∉ (final_output entries ts).data := by
    unfold final_output
    rw [if_neg hne2]
    refine nl_notin_append (nl_notin_append ?_ (by decide))
      (nl_notin_pyJoin (by decide) _ hraws)
    unfold summary_with_issues
    exact nl_notin_append
      (nl_notin_append (nl_notin_append hsum (by decide))
        (nl_notin_pyJoin (by decide) _ hitems))
      (by decide)
  constructor
  · unfold final_output
    rw [if_neg hne2]
  · unfold report
    have hcode_nl : '\n' ∉ (toString (statusOf entries).1).data := by
      rcases hpair with ⟨ho, hs⟩ | ⟨ho, hs⟩ <;> rw [hs] <;> decide
    exact nl_notin_append (nl_notin_append hcode_nl (by decide)) hfin

/-- Counterexample to claim C6 as stated: a single purple entry is a
problem entry in the sense of the claim, yet the final output is the
plain summary with no backslash-n join, because the status code stays
0. -/
theorem detail_join_cex :
    colorOf eP ≠ "green"
  ∧ final_output [eP] "T" = output_summary [eP] "T"
  ∧ final_output [eP] "T"
      ≠ output_summary [eP] "T" ++ "\\n" ++ pyJoin "\\n" [eP.2] := by
  refine ⟨?_, ?_, ?_⟩ <;> decide

/-- Sample block for the amended claim above: a red and a yellow entry. -/
theorem detail_join_literal_sample :
    (0 < (statusOf [eR, eY]).1)
  ∧ (final_output [eR, eY] "T"
      = summary_with_issues [eR, eY] "T" ++ String.mk ['\\', 'n']
          ++ pyJoin (String.mk ['\\', 'n']) (problem_lines_raw [eR, eY])
    ∧ '\n' ∉ (report [eR, eY] "T").data) :=
  ⟨by decide,
    detail_join_literal [eR, eY] "T" (by decide) eR (by decide) (by decide)
      (by decide) (by decide) (by decide)⟩

/-- Claim C8, amended: a block line is cut at every occurrence of the
separator; the raw attribute substring is the whitespace-stripped text
between the first occurrence and the next one, or everything after the
first occurrence when it is the only one, and a line without the
separator is silently excluded.  The claim as stated promises
everything after the first occurrence even with several occurrences;
see the counterexample. -/
theorem separator_takes_middle_part (l : List Char) :
    (splitFirst SEP.data l = none → extractEntries [String.mk l] = [])
  ∧ (∀ p0 r, splitFirst SEP.data l = some (p0, r) →
      ((splitFirst SEP.data r = none →
          extractEntries [String.mk l]
            = [(parse_attributes (pyStrip (String.mk r)), pyStrip (String.mk r))])
       ∧ (∀ p1 r2, splitFirst SEP.data r = some (p1, r2) →
          extractEntries [String.mk l]
            = [(parse_attributes (pyStrip (String.mk p1)), pyStrip (String.mk p1))])))
    := by
  have hsep : SEP.data ≠ [] := by decide
  constructor
  · intro h
    have hps : pySplit (String.mk l) SEP = [String.mk l] := by
      unfold pySplit
      rw [pySplitAux_none _ _ h]
      rfl
    simp only [extractEntries, List.filterMap_cons, List.filterMap_nil, hps]
  · intro p0 r h
    have hl : l ≠ [] := by
      intro he
      rw [he, splitFirst_nil] at h
      exact absurd h (by simp)
    obtain ⟨f, hf⟩ : ∃ f, l.length = f + 1 := by
      cases hlc : l with
      | nil => exact absurd hlc hl
      | cons c cs => exact ⟨cs.length, by simp⟩
    constructor
    · intro h2
      have hps : pySplit (String.mk l) SEP = [String.mk p0, String.mk r] := by
        unfold pySplit
        show (pySplitAux SEP.data l.length l).map _ = _
        rw [hf, pySplitAux_some _ _ _ _ h, pySplitAux_none _ _ h2]
        rfl
      simp only [extractEntries, List.filterMap_cons, List.filterMap_nil, hps]
    · intro p1 r2 h2
      have hrne : r ≠ [] := by
        intro he
        rw [he, splitFirst_nil] at h2
        exact absurd h2 (by simp)
      have hrlt : r.length < l.length := splitFirst_length_lt SEP.data hsep l p0 r h
      obtain ⟨f2, hf2⟩ : ∃ f2, f = f2 + 1 := by
        have hrp : 0 < r.length := List.length_pos.mpr hrne
        exact ⟨f - 1, by omega⟩
      have hps : pySplit (String.mk l) SEP
          = String.mk p0 :: String.mk p1 :: (pySplitAux SEP.data f2 r2).map String.mk := by
        unfold pySplit
        show (pySplitAux SEP.data l.length l).map _ = _
        rw [hf, pySplitAux_some _ _ _ _ h, hf2, pySplitAux_some _ _ _ _ h2]
        rfl
      simp only [extractEntries, List.filterMap_cons, List.filterMap_nil, hps]

/-- Sample line for the amended claim above: with two separator
occurrences, the entry keeps the stripped text between them. -/
theorem separator_takes_middle_part_sample :
    extractEntries
        [String.mk ("pre PeriodicHealthReporter - x=1 PeriodicHealthReporter - y=2").data]
      = [(parse_attributes (pyStrip (String.mk ("x=1 ").data)),
          pyStrip (String.mk ("x=1 ").data))] :=
  ((separator_takes_middle_part
        ("pre PeriodicHealthReporter - x=1 PeriodicHealthReporter - y=2").data).2
      ("pre ").data ("x=1 PeriodicHealthReporter - y=2").data (by decide)).2
    ("x=1 ").data ("y=2").data (by decide)

/-- Counterexample to claim C8 as stated: on a line holding the
separator twice the code keeps only the text between the two
occurrences, not everything after the first one. -/
theorem separator_cex :
    (extractEntries ["ts X PeriodicHealthReporter - a=1 PeriodicHealthReporter - b=2"]).map
        (fun e => e.2) = ["a=1"]
  ∧ (["a=1"] : List String) ≠ ["a=1 PeriodicHealthReporter - b=2"] := by
  constructor <;> decide

end SplunkHealth
